import Mathlib

/-
Verification of the runtime target-triple detection module (src/target.rs).

Strings are modelled as `List Char`, raw process output as `List Nat`
(byte values), and panics / `unwrap` failures as `none` of an `Option`.
External process results are passed in explicitly: `Option Output` is
`none` when the process could not be launched, and carries the captured
exit status, stdout and stderr otherwise.
-/

/-- Characters of a string literal, used to write `List Char` constants. -/
def cs (s : String) : List Char := s.data

/-- Byte encoding of an ASCII character list. -/
def asciiBytes (s : List Char) : List Nat := s.map Char.toNat

/-- Rust `str::contains` with a string pattern: substring occurrence. -/
def strContains (pat : List Char) : List Char → Bool
  | [] => decide (pat = [])
  | c :: rest => List.isPrefixOf pat (c :: rest) || strContains pat rest

/-- Rust `str::strip_prefix`: remove a leading pattern if present. -/
def dropPre (pre s : List Char) : Option (List Char) :=
  if List.isPrefixOf pre s then some (List.drop pre.length s) else none

/-- Recursion worker for `replaceAll`: the fuel argument (one unit per
character consumed) only keeps the recursion structural; `replaceAll`
supplies enough fuel, and `replaceAllF_fuel` shows any sufficient fuel
gives the same answer. -/
def replaceAllF (pat rep : List Char) : Nat → List Char → List Char
  | _, [] => []
  | 0, l => l
  | fuel + 1, c :: rest =>
    if List.isPrefixOf pat (c :: rest) = true ∧ pat ≠ [] then
      rep ++ replaceAllF pat rep fuel (List.drop pat.length (c :: rest))
    else
      c :: replaceAllF pat rep fuel rest

/-- Rust `str::replace`: replace every non-overlapping occurrence of
`pat` by `rep`, scanning left to right (faithful for nonempty `pat`,
which is the only way the source uses it). -/
def replaceAll (pat rep s : List Char) : List Char :=
  replaceAllF pat rep s.length s

/-- Rust `str::rsplit_once(sep)`: split at the last occurrence of `sep`,
returning the part before and the part after it. -/
def rsplitOnce (sep : Char) : List Char → Option (List Char × List Char)
  | [] => none
  | x :: rest =>
    match rsplitOnce sep rest with
    | some (p, s) => some (x :: p, s)
    | none => if x = sep then some ([], rest) else none

/-- The Unicode replacement character U+FFFD. -/
def replacementChar : Char := Char.ofNat 0xFFFD

/-- A UTF-8 continuation byte. -/
def isCont (b : Nat) : Bool := decide (0x80 ≤ b ∧ b ≤ 0xBF)

/-- Valid second byte of a three-byte UTF-8 sequence starting with `b`. -/
def v3First (b c1 : Nat) : Bool :=
  (decide (b = 0xE0) && decide (0xA0 ≤ c1 ∧ c1 ≤ 0xBF)) ||
  (decide (0xE1 ≤ b ∧ b ≤ 0xEC) && isCont c1) ||
  (decide (b = 0xED) && decide (0x80 ≤ c1 ∧ c1 ≤ 0x9F)) ||
  (decide (0xEE ≤ b ∧ b ≤ 0xEF) && isCont c1)

/-- Valid second byte of a four-byte UTF-8 sequence starting with `b`. -/
def v4First (b c1 : Nat) : Bool :=
  (decide (b = 0xF0) && decide (0x90 ≤ c1 ∧ c1 ≤ 0xBF)) ||
  (decide (0xF1 ≤ b ∧ b ≤ 0xF3) && isCont c1) ||
  (decide (b = 0xF4) && decide (0x80 ≤ c1 ∧ c1 ≤ 0x8F))

/-- Rust `String::from_utf8_lossy`: decode UTF-8, replacing each maximal
invalid subpart by U+FFFD, never failing. -/
def utf8Lossy : List Nat → List Char
  | [] => []
  | b :: rest =>
    if b < 0x80 then Char.ofNat b :: utf8Lossy rest
    else if 0xC2 ≤ b ∧ b ≤ 0xDF then
      match rest with
      | [] => [replacementChar]
      | c1 :: rest1 =>
        if isCont c1 then
          Char.ofNat ((b - 0xC0) * 64 + (c1 - 0x80)) :: utf8Lossy rest1
        else replacementChar :: utf8Lossy (c1 :: rest1)
    else if 0xE0 ≤ b ∧ b ≤ 0xEF then
      match rest with
      | [] => [replacementChar]
      | c1 :: rest1 =>
        if v3First b c1 then
          match rest1 with
          | [] => [replacementChar]
          | c2 :: rest2 =>
            if isCont c2 then
              Char.ofNat ((b - 0xE0) * 4096 + (c1 - 0x80) * 64 + (c2 - 0x80)) ::
                utf8Lossy rest2
            else replacementChar :: utf8Lossy (c2 :: rest2)
        else replacementChar :: utf8Lossy (c1 :: rest1)
    else if 0xF0 ≤ b ∧ b ≤ 0xF4 then
      match rest with
      | [] => [replacementChar]
      | c1 :: rest1 =>
        if v4First b c1 then
          match rest1 with
          | [] => [replacementChar]
          | c2 :: rest2 =>
            if isCont c2 then
              match rest2 with
              | [] => [replacementChar]
              | c3 :: rest3 =>
                if isCont c3 then
                  Char.ofNat ((b - 0xF0) * 262144 + (c1 - 0x80) * 4096 +
                      (c2 - 0x80) * 64 + (c3 - 0x80)) :: utf8Lossy rest3
                else replacementChar :: utf8Lossy (c3 :: rest3)
            else replacementChar :: utf8Lossy (c2 :: rest2)
        else replacementChar :: utf8Lossy (c1 :: rest1)
    else replacementChar :: utf8Lossy rest

/-- Strict UTF-8 decoding (`String::from_utf8` / `BufRead::read_line`
validation): `none` on any malformed sequence. -/
def utf8Decode? : List Nat → Option (List Char)
  | [] => some []
  | b :: rest =>
    if b < 0x80 then Option.map (fun tl => Char.ofNat b :: tl) (utf8Decode? rest)
    else if 0xC2 ≤ b ∧ b ≤ 0xDF then
      match rest with
      | c1 :: rest1 =>
        if isCont c1 then
          Option.map (fun tl => Char.ofNat ((b - 0xC0) * 64 + (c1 - 0x80)) :: tl)
            (utf8Decode? rest1)
        else none
      | [] => none
    else if 0xE0 ≤ b ∧ b ≤ 0xEF then
      match rest with
      | c1 :: c2 :: rest2 =>
        if v3First b c1 && isCont c2 then
          Option.map
            (fun tl => Char.ofNat ((b - 0xE0) * 4096 + (c1 - 0x80) * 64 + (c2 - 0x80)) :: tl)
            (utf8Decode? rest2)
        else none
      | _ => none
    else if 0xF0 ≤ b ∧ b ≤ 0xF4 then
      match rest with
      | c1 :: c2 :: c3 :: rest3 =>
        if v4First b c1 && isCont c2 && isCont c3 then
          Option.map
            (fun tl => Char.ofNat ((b - 0xF0) * 262144 + (c1 - 0x80) * 4096 +
                (c2 - 0x80) * 64 + (c3 - 0x80)) :: tl)
            (utf8Decode? rest3)
        else none
      | _ => none
    else none

/-- Split a byte buffer at every newline byte; the result always has at
least one (possibly empty) segment. -/
def splitNl : List Nat → List (List Nat)
  | [] => [[]]
  | b :: rest =>
    if b = 10 then [] :: splitNl rest
    else
      match splitNl rest with
      | l :: ls => (b :: l) :: ls
      | [] => [[b]]

/-- `BufRead::lines` segmentation: the newline-separated segments of the
buffer, without a trailing empty segment when the buffer ends in `\n`. -/
def byteLines (bs : List Nat) : List (List Nat) :=
  let segs := splitNl bs
  if segs.getLast? = some [] then segs.dropLast else segs

/-- `BufRead::lines` also strips one carriage return at the end of a line. -/
def stripCr (l : List Nat) : List Nat :=
  if l.getLast? = some 13 then l.dropLast else l

/-- Captured result of a finished external process: exit-status success
flag, stdout bytes, stderr bytes (`std::process::Output`). -/
structure Output where
  status : Bool
  stdout : List Nat
  stderr : List Nat

/-- `get_target_from_rustc`: `rustcRes` is the result of running
`rustc -vV` (`none` when the process could not be launched). Returns the
first stdout line's remainder after the literal prefix `"host: "`, or
`none` when launch failed, the exit status was non-success, or no
(valid UTF-8) stdout line has that prefix. -/
def get_target_from_rustc (rustcRes : Option Output) : Option (List Char) :=
  match rustcRes with
  | none => none
  | some o =>
    if !o.status then none
    else
      List.findSome? (fun line => dropPre (cs "host: ") line)
        (List.filterMap (fun l => utf8Decode? (stripCr l)) (byteLines o.stdout))

/-- `parse_libc_version_from_ldd_output`: lossily decode the bytes, then
report `"musl"` when the text contains `"musl libc"`, else `"gnu"` when
it contains `"GLIBC"`, else nothing. -/
def parse_libc_version_from_ldd_output (output : List Nat) : Option (List Char) :=
  let s := utf8Lossy output
  if strContains (cs "musl libc") s then some (cs "musl")
  else if strContains (cs "GLIBC") s then some (cs "gnu")
  else none

/-- `parse_abi`: take the final hyphen-delimited field of the
compile-time `TARGET` triple and strip a leading `"musl"` or `"gnu"`
marker; `none` models the panic (`unwrap` on a triple with no hyphen, or
`panic!("Unrecognized libc")`). -/
def parse_abi (target : List Char) : Option (List Char) :=
  match rsplitOnce '-' target with
  | none => none
  | some (_, last) =>
    match dropPre (cs "musl") last with
    | some libcVersion => some libcVersion
    | none =>
      match dropPre (cs "gnu") last with
      | some libcVersion => some libcVersion
      | none => none

/-- `create_target_str`: the part of `TARGET` before its last hyphen,
then a hyphen, then the libc marker, then the ABI qualifier with no
separator; `none` models the `unwrap` panic on a hyphen-less triple. -/
def create_target_str (target libcVersion abi : List Char) : Option (List Char) :=
  match rsplitOnce '-' target with
  | none => none
  | some (pre, _) => some (pre ++ ['-'] ++ libcVersion ++ abi)

/-- The libc marker extracted from a finished `ldd --version` process:
stdout is parsed first, then stderr; the exit status plays no part. -/
def detectedLibc (o : Output) : Option (List Char) :=
  match parse_libc_version_from_ldd_output o.stdout with
  | some libcVersion => some libcVersion
  | none => parse_libc_version_from_ldd_output o.stderr

/-- `detect_targets_linux`: `lddRes` is the result of running
`ldd --version` (`none` when it could not be launched). Returns the
candidate list, or `none` when `parse_abi` panics. -/
def detect_targets_linux (target : List Char) (lddRes : Option Output) :
    Option (List (List Char)) :=
  match parse_abi target with
  | none => none
  | some abi =>
    match lddRes with
    | some o =>
      match detectedLibc o with
      | some libcVersion =>
        if libcVersion = cs "gnu" then
          match create_target_str target (cs "gnu") abi,
              create_target_str target (cs "musl") abi with
          | some g, some m => some [g, m]
          | _, _ => none
        else Option.map (fun m => [m]) (create_target_str target (cs "musl") abi)
      | none => Option.map (fun m => [m]) (create_target_str target (cs "musl") abi)
    | none => Option.map (fun m => [m]) (create_target_str target (cs "musl") abi)

/-- `macos::AARCH64`. -/
def AARCH64 : List Char := cs "aarch64-apple-darwin"

/-- `macos::X86`. -/
def X86 : List Char := cs "x86_64-apple-darwin"

/-- `detect_targets_macos`: `guess` is what `guess_host_triple()`
returned. -/
def detect_targets_macos (guess : Option (List Char)) : List (List Char) :=
  if guess = some AARCH64 then [AARCH64, X86] else [X86]

/-- The `target_os` the binary was compiled for, selecting among the
`cfg`-gated branches of `detect_targets`. -/
inductive OS
  | linux
  | macos
  | other

/-- `detect_targets`: `target` is the compile-time `TARGET` constant,
`rustcRes` the result of `rustc -vV`, `lddRes` the result of
`ldd --version` (consulted only on the Linux fallback path) and `guess`
the `guess_host_triple()` answer (macOS fallback path only); `none`
models the Linux heuristic's panic. -/
def detect_targets (os : OS) (target : List Char) (rustcRes lddRes : Option Output)
    (guess : Option (List Char)) : Option (List (List Char)) :=
  match get_target_from_rustc rustcRes with
  | some t =>
    match os with
    | OS.linux =>
      some (if strContains (cs "gnu") t then
        [t, replaceAll (cs "gnu") (cs "musl") t] else [t])
    | OS.macos => some (if t = AARCH64 then [t, X86] else [t])
    | OS.other => some [t]
  | none =>
    match os with
    | OS.linux => detect_targets_linux target lddRes
    | OS.macos => some (detect_targets_macos guess)
    | OS.other => some [target]

/-- Modelled from the spec: the positionally first recognized marker
substring of a decoded output buffer (`"musl libc"` meaning musl,
`"GLIBC"` meaning gnu), used to compare the implemented parser with the
spec's reading "the first recognized marker substring found in the
buffer". -/
def firstMarkerInOutput : List Char → Option (List Char)
  | [] => none
  | c :: rest =>
    if List.isPrefixOf (cs "musl libc") (c :: rest) then some (cs "musl")
    else if List.isPrefixOf (cs "GLIBC") (c :: rest) then some (cs "gnu")
    else firstMarkerInOutput rest

/-! ### Helper lemmas -/

theorem rsplitOnce_eq (sep : Char) :
    ∀ t p s, rsplitOnce sep t = some (p, s) → t = p ++ sep :: s := by
  intro t
  induction t with
  | nil => intro p s h; simp [rsplitOnce] at h
  | cons x rest ih =>
    intro p s h
    cases hr : rsplitOnce sep rest with
    | some pr =>
      obtain ⟨p1, s1⟩ := pr
      rw [rsplitOnce, hr] at h
      simp only [Option.some.injEq, Prod.mk.injEq] at h
      obtain ⟨hp, hs⟩ := h
      subst hs
      rw [← hp]
      simp only [List.cons_append]
      exact congrArg (List.cons x) (ih p1 s1 hr)
    | none =>
      rw [rsplitOnce, hr] at h
      by_cases hx : x = sep
      · rw [if_pos hx] at h
        simp only [Option.some.injEq, Prod.mk.injEq] at h
        obtain ⟨hp, hs⟩ := h
        subst hx
        rw [← hp, ← hs]
        simp
      · rw [if_neg hx] at h
        simp at h

theorem prefix_length_le {p l : List Char} (h : List.isPrefixOf p l = true) :
    p.length ≤ l.length :=
  List.IsPrefix.length_le (List.isPrefixOf_iff_prefix.mp h)

theorem findSome?_dropPre (pre : List Char) (ls : List (List Char)) :
    List.findSome? (fun l => dropPre pre l) ls =
      Option.map (fun l => List.drop pre.length l)
        (List.find? (fun l => List.isPrefixOf pre l) ls) := by
  induction ls with
  | nil => rfl
  | cons x xs ih =>
    cases hbb : List.isPrefixOf pre x with
    | true =>
      have h1 : dropPre pre x = some (List.drop pre.length x) := by
        rw [dropPre, if_pos hbb]
      simp only [List.findSome?_cons, List.find?_cons, h1, hbb, Option.map_some']
    | false =>
      have hn : ¬ List.isPrefixOf pre x = true := fun hc => by
        rw [hbb] at hc
        exact Bool.noConfusion hc
      have h1 : dropPre pre x = none := by
        rw [dropPre, if_neg hn]
      simp only [List.findSome?_cons, List.find?_cons, h1, hbb, ih]

theorem replaceAllF_fuel (pat rep : List Char) :
    ∀ f1 f2 l, List.length l ≤ f1 → List.length l ≤ f2 →
      replaceAllF pat rep f1 l = replaceAllF pat rep f2 l := by
  intro f1
  induction f1 with
  | zero =>
    intro f2 l h1 h2
    have hl : l = [] := List.length_eq_zero.mp (Nat.le_zero.mp h1)
    subst hl
    cases f2 <;> rfl
  | succ f1 ih =>
    intro f2 l h1 h2
    cases l with
    | nil => cases f2 <;> rfl
    | cons c rest =>
      cases f2 with
      | zero => simp at h2
      | succ f2 =>
        rw [replaceAllF, replaceAllF]
        by_cases hc : List.isPrefixOf pat (c :: rest) = true ∧ pat ≠ []
        · rw [if_pos hc, if_pos hc]
          have hp : 0 < pat.length := List.length_pos.mpr hc.2
          have hd : (List.drop pat.length (c :: rest)).length ≤ rest.length := by
            simp only [List.length_drop, List.length_cons]
            omega
          simp only [List.length_cons] at h1 h2
          congr 1
          exact ih f2 _ (by omega) (by omega)
        · rw [if_neg hc, if_neg hc]
          simp only [List.length_cons] at h1 h2
          congr 1
          exact ih f2 _ (by omega) (by omega)

theorem replaceAllF_length_ge (pat rep : List Char) (hlen : pat.length ≤ rep.length) :
    ∀ fuel l, List.length l ≤ fuel →
      List.length l ≤ List.length (replaceAllF pat rep fuel l) := by
  intro fuel
  induction fuel with
  | zero =>
    intro l h1
    have hl : l = [] := List.length_eq_zero.mp (Nat.le_zero.mp h1)
    subst hl
    simp [replaceAllF]
  | succ fuel ih =>
    intro l h1
    cases l with
    | nil => simp [replaceAllF]
    | cons c rest =>
      rw [replaceAllF]
      by_cases hc : List.isPrefixOf pat (c :: rest) = true ∧ pat ≠ []
      · rw [if_pos hc]
        have hple : pat.length ≤ (c :: rest).length := prefix_length_le hc.1
        have hp : 0 < pat.length := List.length_pos.mpr hc.2
        have hd : (List.drop pat.length (c :: rest)).length ≤ fuel := by
          simp only [List.length_drop, List.length_cons]
          simp only [List.length_cons] at h1
          omega
        have := ih _ hd
        simp only [List.length_append, List.length_drop, List.length_cons] at this ⊢
        simp only [List.length_cons] at hple h1
        omega
      · rw [if_neg hc]
        simp only [List.length_cons] at h1
        have := ih rest (by omega)
        simp only [List.length_cons]
        omega

theorem replaceAllF_length_gt (pat rep : List Char) (hne : pat ≠ [])
    (hlen : pat.length < rep.length) :
    ∀ fuel l, List.length l ≤ fuel → strContains pat l = true →
      List.length l < List.length (replaceAllF pat rep fuel l) := by
  intro fuel
  induction fuel with
  | zero =>
    intro l h1 hs
    have hl : l = [] := List.length_eq_zero.mp (Nat.le_zero.mp h1)
    subst hl
    simp [strContains, hne] at hs
  | succ fuel ih =>
    intro l h1 hs
    cases l with
    | nil => simp [strContains, hne] at hs
    | cons c rest =>
      rw [replaceAllF]
      by_cases hc : List.isPrefixOf pat (c :: rest) = true ∧ pat ≠ []
      · rw [if_pos hc]
        have hple : pat.length ≤ (c :: rest).length := prefix_length_le hc.1
        have hp : 0 < pat.length := List.length_pos.mpr hne
        have hd : (List.drop pat.length (c :: rest)).length ≤ fuel := by
          simp only [List.length_drop, List.length_cons]
          simp only [List.length_cons] at h1
          omega
        have := replaceAllF_length_ge pat rep (Nat.le_of_lt hlen) fuel _ hd
        simp only [List.length_append, List.length_drop, List.length_cons] at this ⊢
        simp only [List.length_cons] at hple h1
        omega
      · rw [if_neg hc]
        have hpre : List.isPrefixOf pat (c :: rest) = false := by
          by_cases hb : List.isPrefixOf pat (c :: rest) = true
          · exact absurd ⟨hb, hne⟩ hc
          · simpa only [Bool.not_eq_true] using hb
        rw [strContains, hpre, Bool.false_or] at hs
        simp only [List.length_cons] at h1
        have := ih rest (by omega) hs
        simp only [List.length_cons]
        omega

theorem replaceAll_length_gt (pat rep s : List Char) (hne : pat ≠ [])
    (hlen : pat.length < rep.length) (hs : strContains pat s = true) :
    List.length s < List.length (replaceAll pat rep s) :=
  replaceAllF_length_gt pat rep hne hlen s.length s (Nat.le_refl _) hs

theorem gnu_not_musl (l : List Char) (h : List.isPrefixOf (cs "gnu") l = true) :
    List.isPrefixOf (cs "musl") l = false := by
  cases l with
  | nil => exact absurd h (by decide)
  | cons c rest =>
    have hg : cs "gnu" = 'g' :: cs "nu" := rfl
    have hm : cs "musl" = 'm' :: cs "usl" := rfl
    rw [hg, List.isPrefixOf] at h
    rw [hm, List.isPrefixOf]
    simp only [Bool.and_eq_true, beq_iff_eq] at h
    obtain ⟨hc, _⟩ := h
    subst hc
    have hmg : ('m' == 'g') = false := by decide
    rw [hmg, Bool.false_and]

theorem parse_abi_eq (target p0 l0 : List Char)
    (hr : rsplitOnce '-' target = some (p0, l0)) :
    parse_abi target =
      (match dropPre (cs "musl") l0 with
       | some lv => some lv
       | none =>
         match dropPre (cs "gnu") l0 with
         | some lv => some lv
         | none => none) := by
  unfold parse_abi
  rw [hr]

/-! ### Claim theorems -/

/-- C9: with the toolchain probe unavailable on macOS, the heuristic
returns [AARCH64, X86] when the OS host-triple guess is the aarch64
constant, and [X86] for any other guess (including none). -/
theorem claim_C9_detect_targets_macos (guess : Option (List Char)) :
    (guess = some AARCH64 → detect_targets_macos guess = [AARCH64, X86]) ∧
    (guess ≠ some AARCH64 → detect_targets_macos guess = [X86]) := by
  constructor
  · intro h
    rw [detect_targets_macos, if_pos h]
  · intro h
    rw [detect_targets_macos, if_neg h]

/-- Witness for C9 at the concrete guesses `some AARCH64` and `none`. -/
theorem claim_C9_witness :
    detect_targets_macos (some AARCH64) = [AARCH64, X86] ∧
    detect_targets_macos none = [X86] :=
  ⟨(claim_C9_detect_targets_macos (some AARCH64)).1 rfl,
   (claim_C9_detect_targets_macos none).2 (by decide)⟩

/-- C6 counterexample: for compile-time triple "a-xgnu" the final
hyphen-delimited field "xgnu" contains the substring "gnu", yet
`parse_abi` still panics (returns `none`), contradicting the claim that
the panic happens exactly when the field contains neither marker. -/
theorem claim_C6_counterexample :
    rsplitOnce '-' (cs "a-xgnu") = some (cs "a", cs "xgnu") ∧
    strContains (cs "gnu") (cs "xgnu") = true ∧
    parse_abi (cs "a-xgnu") = none := by decide

/-- C6 (amended): `parse_abi` panics exactly when the triple has no
hyphen or its final hyphen-delimited field STARTS WITH neither "musl"
nor "gnu"; when the field starts with a marker, the residual ABI
qualifier is the field with that leading marker removed. -/
theorem claim_C6_parse_abi (target : List Char) :
    (parse_abi target = none ↔
      rsplitOnce '-' target = none ∨
        ∃ p l0, rsplitOnce '-' target = some (p, l0) ∧
          List.isPrefixOf (cs "musl") l0 = false ∧
          List.isPrefixOf (cs "gnu") l0 = false) ∧
    (∀ p l0, rsplitOnce '-' target = some (p, l0) →
      (List.isPrefixOf (cs "musl") l0 = true →
        parse_abi target = some (List.drop (cs "musl").length l0)) ∧
      (List.isPrefixOf (cs "gnu") l0 = true →
        parse_abi target = some (List.drop (cs "gnu").length l0))) := by
  cases hr : rsplitOnce '-' target with
  | none =>
    have hp : parse_abi target = none := by
      unfold parse_abi
      rw [hr]
    refine ⟨iff_of_true hp (Or.inl rfl), ?_⟩
    intro p l0 h
    exact absurd h (by simp)
  | some pr =>
    obtain ⟨p0, l0⟩ := pr
    have habi := parse_abi_eq target p0 l0 hr
    cases hm : List.isPrefixOf (cs "musl") l0 with
    | true =>
      have hdm : dropPre (cs "musl") l0 = some (List.drop (cs "musl").length l0) := by
        rw [dropPre, if_pos hm]
      have hp : parse_abi target = some (List.drop (cs "musl").length l0) := by
        rw [habi, hdm]
      constructor
      · apply iff_of_false
        · rw [hp]
          exact fun hc => Option.noConfusion hc
        · rintro (h1 | ⟨p1, l1, h1, h2, h3⟩)
          · exact Option.noConfusion h1
          · simp only [Option.some.injEq, Prod.mk.injEq] at h1
            rw [← h1.2, hm] at h2
            exact Bool.noConfusion h2
      · intro p1 l1 h1
        simp only [Option.some.injEq, Prod.mk.injEq] at h1
        obtain ⟨hp1, hl1⟩ := h1
        subst hl1
        refine ⟨fun _ => hp, fun hg => ?_⟩
        have hcontra := gnu_not_musl l0 hg
        rw [hm] at hcontra
        exact Bool.noConfusion hcontra
    | false =>
      have hnm : ¬ List.isPrefixOf (cs "musl") l0 = true := fun hc => by
        rw [hm] at hc
        exact Bool.noConfusion hc
      have hdm : dropPre (cs "musl") l0 = none := by
        rw [dropPre, if_neg hnm]
      cases hg : List.isPrefixOf (cs "gnu") l0 with
      | true =>
        have hdg : dropPre (cs "gnu") l0 = some (List.drop (cs "gnu").length l0) := by
          rw [dropPre, if_pos hg]
        have hp : parse_abi target = some (List.drop (cs "gnu").length l0) := by
          rw [habi, hdm, hdg]
        constructor
        · apply iff_of_false
          · rw [hp]
            exact fun hc => Option.noConfusion hc
          · rintro (h1 | ⟨p1, l1, h1, h2, h3⟩)
            · exact Option.noConfusion h1
            · simp only [Option.some.injEq, Prod.mk.injEq] at h1
              rw [← h1.2, hg] at h3
              exact Bool.noConfusion h3
        · intro p1 l1 h1
          simp only [Option.some.injEq, Prod.mk.injEq] at h1
          obtain ⟨hp1, hl1⟩ := h1
          subst hl1
          refine ⟨fun hmm => ?_, fun _ => hp⟩
          rw [hmm] at hm
          exact Bool.noConfusion hm
      | false =>
        have hng : ¬ List.isPrefixOf (cs "gnu") l0 = true := fun hc => by
          rw [hg] at hc
          exact Bool.noConfusion hc
        have hdg : dropPre (cs "gnu") l0 = none := by
          rw [dropPre, if_neg hng]
        have hp : parse_abi target = none := by
          rw [habi, hdm, hdg]
        constructor
        · exact iff_of_true hp (Or.inr ⟨p0, l0, rfl, hm, hg⟩)
        · intro p1 l1 h1
          simp only [Option.some.injEq, Prod.mk.injEq] at h1
          obtain ⟨hp1, hl1⟩ := h1
          subst hl1
          refine ⟨fun hmm => ?_, fun hgg => ?_⟩
          · rw [hmm] at hm
            exact Bool.noConfusion hm
          · rw [hgg] at hg
            exact Bool.noConfusion hg

/-- Witness for C6's amended theorem at the compile-time triple
"x86_64-unknown-linux-gnu". -/
theorem claim_C6_witness :
    parse_abi (cs "x86_64-unknown-linux-gnu") =
      some (List.drop (cs "gnu").length (cs "gnu")) :=
  ((claim_C6_parse_abi (cs "x86_64-unknown-linux-gnu")).2
    (cs "x86_64-unknown-linux") (cs "gnu") (by decide)).2 (by decide)

/-- C8: `create_target_str` produces the portion of the compile-time
triple before its last hyphen, then a hyphen, then the libc marker,
then the ABI qualifier with no separator; in particular, with
compile-time ABI suffix "gnueabihf" and glibc detected, the Linux
heuristic yields the gnueabihf/musleabihf pair. -/
theorem claim_C8_create_target_str (target p0 l0 : List Char)
    (hr : rsplitOnce '-' target = some (p0, l0)) :
    (∀ libcVersion abi, create_target_str target libcVersion abi =
        some (p0 ++ ['-'] ++ libcVersion ++ abi)) ∧
    (l0 = cs "gnueabihf" → ∀ o, detectedLibc o = some (cs "gnu") →
      detect_targets_linux target (some o) =
        some [p0 ++ cs "-gnueabihf", p0 ++ cs "-musleabihf"]) := by
  have hc : ∀ libcVersion abi, create_target_str target libcVersion abi =
      some (p0 ++ ['-'] ++ libcVersion ++ abi) := by
    intro lv abi
    unfold create_target_str
    rw [hr]
  refine ⟨hc, ?_⟩
  intro hl o ho
  subst hl
  have hdm : dropPre (cs "musl") (cs "gnueabihf") = none := by decide
  have hdg : dropPre (cs "gnu") (cs "gnueabihf") = some (cs "eabihf") := by decide
  have habi : parse_abi target = some (cs "eabihf") := by
    rw [parse_abi_eq target p0 (cs "gnueabihf") hr, hdm, hdg]
  have hcg := hc (cs "gnu") (cs "eabihf")
  have hcm := hc (cs "musl") (cs "eabihf")
  simp only [detect_targets_linux, habi, ho, hcg, hcm]
  rw [if_pos trivial]
  have h1 : (['-'] ++ (cs "gnu" ++ cs "eabihf") : List Char) = cs "-gnueabihf" := by
    decide
  have h2 : (['-'] ++ (cs "musl" ++ cs "eabihf") : List Char) = cs "-musleabihf" := by
    decide
  simp only [List.append_assoc]
  rw [h1, h2]

/-- Witness for C8: a concrete armv7 gnueabihf triple with glibc
detected in the linker output. -/
theorem claim_C8_witness :
    detect_targets_linux (cs "armv7-unknown-linux-gnueabihf")
        (some (Output.mk true (asciiBytes (cs "ldd (GNU libc) 2.31\nGLIBC\n")) [])) =
      some [cs "armv7-unknown-linux" ++ cs "-gnueabihf",
        cs "armv7-unknown-linux" ++ cs "-musleabihf"] :=
  (claim_C8_create_target_str (cs "armv7-unknown-linux-gnueabihf")
      (cs "armv7-unknown-linux") (cs "gnueabihf") (by decide)).2 rfl
    (Output.mk true (asciiBytes (cs "ldd (GNU libc) 2.31\nGLIBC\n")) []) (by decide)

/-- C10: for every compile-time triple whose final hyphen-delimited
field begins with marker m (either "musl" or "gnu"), composing a target
from m and the parsed residual ABI qualifier reproduces the triple:
create_target_str m (parse_abi ()) = TARGET. -/
theorem claim_C10_roundtrip (target p0 l0 m : List Char)
    (hr : rsplitOnce '-' target = some (p0, l0))
    (hm : m = cs "musl" ∨ m = cs "gnu")
    (hpre : List.isPrefixOf m l0 = true) :
    parse_abi target = some (List.drop m.length l0) ∧
    create_target_str target m (List.drop m.length l0) = some target := by
  have ht : target = p0 ++ '-' :: l0 := rsplitOnce_eq '-' target p0 l0 hr
  have hl0 : m ++ List.drop m.length l0 = l0 :=
    List.prefix_iff_eq_append.mp (List.isPrefixOf_iff_prefix.mp hpre)
  have hcreate : create_target_str target m (List.drop m.length l0) = some target := by
    unfold create_target_str
    rw [hr]
    refine congrArg some ?_
    calc p0 ++ ['-'] ++ m ++ List.drop m.length l0
        = p0 ++ (['-'] ++ (m ++ List.drop m.length l0)) := by
          simp only [List.append_assoc]
      _ = p0 ++ (['-'] ++ l0) := by rw [hl0]
      _ = target := by rw [ht]; rfl
  refine ⟨?_, hcreate⟩
  cases hm with
  | inl hmm =>
    subst hmm
    have hdm : dropPre (cs "musl") l0 = some (List.drop (cs "musl").length l0) := by
      rw [dropPre, if_pos hpre]
    rw [parse_abi_eq target p0 l0 hr, hdm]
  | inr hmg =>
    subst hmg
    have hnmB : List.isPrefixOf (cs "musl") l0 = false := gnu_not_musl l0 hpre
    have hnm : ¬ List.isPrefixOf (cs "musl") l0 = true := fun hc => by
      rw [hnmB] at hc
      exact Bool.noConfusion hc
    have hdm : dropPre (cs "musl") l0 = none := by
      rw [dropPre, if_neg hnm]
    have hdg : dropPre (cs "gnu") l0 = some (List.drop (cs "gnu").length l0) := by
      rw [dropPre, if_pos hpre]
    rw [parse_abi_eq target p0 l0 hr, hdm, hdg]

/-- Witness for C10 at the concrete triple
"x86_64-unknown-linux-musleabi" with marker "musl". -/
theorem claim_C10_witness :
    parse_abi (cs "x86_64-unknown-linux-musleabi") =
        some (List.drop (cs "musl").length (cs "musleabi")) ∧
      create_target_str (cs "x86_64-unknown-linux-musleabi") (cs "musl")
          (List.drop (cs "musl").length (cs "musleabi")) =
        some (cs "x86_64-unknown-linux-musleabi") :=
  claim_C10_roundtrip (cs "x86_64-unknown-linux-musleabi")
    (cs "x86_64-unknown-linux") (cs "musleabi") (cs "musl")
    (by decide) (Or.inl rfl) (by decide)

/-- C7 counterexample: on a buffer where "GLIBC" occurs before
"musl libc", the positionally first recognized marker is the glibc one,
but the parser still reports musl, because it checks the musl marker
first regardless of position. -/
theorem claim_C7_counterexample :
    parse_libc_version_from_ldd_output (asciiBytes (cs "GLIBC 2.31 and musl libc")) =
        some (cs "musl") ∧
      firstMarkerInOutput (utf8Lossy (asciiBytes (cs "GLIBC 2.31 and musl libc"))) =
        some (cs "gnu") ∧
      parse_libc_version_from_ldd_output (asciiBytes (cs "GLIBC 2.31 and musl libc")) ≠
        firstMarkerInOutput (utf8Lossy (asciiBytes (cs "GLIBC 2.31 and musl libc"))) := by
  decide

/-- C7 (amended): the parser is total on byte buffers (decoding is
permissive) and reports "musl" when the decoded text contains
"musl libc" anywhere, else "gnu" when it contains "GLIBC", else no
result; the musl marker is checked before the glibc marker regardless of
their positions in the buffer. -/
theorem claim_C7_parse_libc (bs : List Nat) :
    (parse_libc_version_from_ldd_output bs = some (cs "musl") ↔
      strContains (cs "musl libc") (utf8Lossy bs) = true) ∧
    (parse_libc_version_from_ldd_output bs = some (cs "gnu") ↔
      strContains (cs "musl libc") (utf8Lossy bs) = false ∧
        strContains (cs "GLIBC") (utf8Lossy bs) = true) ∧
    (parse_libc_version_from_ldd_output bs = none ↔
      strContains (cs "musl libc") (utf8Lossy bs) = false ∧
        strContains (cs "GLIBC") (utf8Lossy bs) = false) := by
  simp only [parse_libc_version_from_ldd_output]
  by_cases hm : strContains (cs "musl libc") (utf8Lossy bs) = true
  · rw [if_pos hm]
    refine ⟨iff_of_true rfl hm, ?_, ?_⟩
    · apply iff_of_false
      · intro hc
        exact absurd (Option.some.inj hc) (by decide)
      · rintro ⟨h1, _⟩
        rw [hm] at h1
        exact Bool.noConfusion h1
    · apply iff_of_false
      · exact fun hc => Option.noConfusion hc
      · rintro ⟨h1, _⟩
        rw [hm] at h1
        exact Bool.noConfusion h1
  · rw [if_neg hm]
    have hmf : strContains (cs "musl libc") (utf8Lossy bs) = false := by
      simpa only [Bool.not_eq_true] using hm
    by_cases hg : strContains (cs "GLIBC") (utf8Lossy bs) = true
    · rw [if_pos hg]
      refine ⟨?_, iff_of_true rfl ⟨hmf, hg⟩, ?_⟩
      · apply iff_of_false
        · intro hc
          exact absurd (Option.some.inj hc) (by decide)
        · intro h1
          exact hm h1
      · apply iff_of_false
        · exact fun hc => Option.noConfusion hc
        · rintro ⟨_, h2⟩
          rw [hg] at h2
          exact Bool.noConfusion h2
    · rw [if_neg hg]
      have hgf : strContains (cs "GLIBC") (utf8Lossy bs) = false := by
        simpa only [Bool.not_eq_true] using hg
      refine ⟨?_, ?_, iff_of_true rfl ⟨hmf, hgf⟩⟩
      · apply iff_of_false
        · exact fun hc => Option.noConfusion hc
        · intro h1
          exact hm h1
      · apply iff_of_false
        · exact fun hc => Option.noConfusion hc
        · rintro ⟨_, h2⟩
          exact hg h2

/-- Witness for C7's amended theorem: a buffer containing a malformed
byte (255) is still decoded and its musl marker found. -/
theorem claim_C7_witness :
    parse_libc_version_from_ldd_output
        (asciiBytes (cs "version ") ++ 255 :: asciiBytes (cs " musl libc")) =
      some (cs "musl") :=
  (claim_C7_parse_libc
    (asciiBytes (cs "version ") ++ 255 :: asciiBytes (cs " musl libc"))).1.mpr
    (by decide)

/-- C4: the toolchain probe yields nothing when the process cannot be
started, when it exits unsuccessfully, or when no stdout line begins
with "host: "; otherwise it yields the remainder (prefix removed) of the
first stdout line beginning with "host: ". -/
theorem claim_C4_get_target_from_rustc :
    (get_target_from_rustc none = none) ∧
    (∀ o, o.status = false → get_target_from_rustc (some o) = none) ∧
    (∀ o, o.status = true →
      get_target_from_rustc (some o) =
        Option.map (fun l => List.drop (cs "host: ").length l)
          (List.find? (fun l => List.isPrefixOf (cs "host: ") l)
            (List.filterMap (fun l => utf8Decode? (stripCr l)) (byteLines o.stdout)))) ∧
    (∀ o, o.status = true →
      (∀ l ∈ List.filterMap (fun l => utf8Decode? (stripCr l)) (byteLines o.stdout),
        List.isPrefixOf (cs "host: ") l = false) →
      get_target_from_rustc (some o) = none) := by
  have hmain : ∀ o : Output, o.status = true →
      get_target_from_rustc (some o) =
        Option.map (fun l => List.drop (cs "host: ").length l)
          (List.find? (fun l => List.isPrefixOf (cs "host: ") l)
            (List.filterMap (fun l => utf8Decode? (stripCr l)) (byteLines o.stdout))) := by
    intro o ho
    have h1 : get_target_from_rustc (some o) =
        List.findSome? (fun line => dropPre (cs "host: ") line)
          (List.filterMap (fun l => utf8Decode? (stripCr l)) (byteLines o.stdout)) := by
      simp [get_target_from_rustc, ho]
    rw [h1, findSome?_dropPre]
  refine ⟨rfl, ?_, hmain, ?_⟩
  · intro o ho
    simp [get_target_from_rustc, ho]
  · intro o ho hall
    rw [hmain o ho]
    have hfind : List.find? (fun l => List.isPrefixOf (cs "host: ") l)
        (List.filterMap (fun l => utf8Decode? (stripCr l)) (byteLines o.stdout)) = none := by
      rw [List.find?_eq_none]
      intro x hx hc
      rw [hall x hx] at hc
      exact Bool.noConfusion hc
    rw [hfind]
    rfl

/-- Witness for C4 at a concrete successful rustc output containing a
host line among others. -/
theorem claim_C4_witness :
    get_target_from_rustc
        (some (Output.mk true
          (asciiBytes (cs "rustc 1.70.0\nhost: x86_64-unknown-linux-gnu\nrelease: 1.70.0\n"))
          [])) =
      some (cs "x86_64-unknown-linux-gnu") := by
  rw [claim_C4_get_target_from_rustc.2.2.1
    (Output.mk true
      (asciiBytes (cs "rustc 1.70.0\nhost: x86_64-unknown-linux-gnu\nrelease: 1.70.0\n"))
      []) rfl]
  decide

/-- C2: given the heuristic does not panic, for every outcome of the
ldd query: glibc detected in the captured output yields the two-element
[gnu-flavored, musl-flavored] list in that order; musl detected or
inconclusive output yields the single musl-flavored list; and a process
that cannot be run at all also yields the single musl-flavored list. -/
theorem claim_C2_detect_targets_linux (target p0 l0 abi : List Char)
    (hr : rsplitOnce '-' target = some (p0, l0))
    (habi : parse_abi target = some abi) :
    (∀ o, detectedLibc o = some (cs "gnu") →
      detect_targets_linux target (some o) =
        some [p0 ++ ['-'] ++ cs "gnu" ++ abi, p0 ++ ['-'] ++ cs "musl" ++ abi]) ∧
    (∀ o, detectedLibc o = some (cs "musl") ∨ detectedLibc o = none →
      detect_targets_linux target (some o) =
        some [p0 ++ ['-'] ++ cs "musl" ++ abi]) ∧
    (detect_targets_linux target none =
      some [p0 ++ ['-'] ++ cs "musl" ++ abi]) := by
  have hcg : create_target_str target (cs "gnu") abi =
      some (p0 ++ ['-'] ++ cs "gnu" ++ abi) := by
    unfold create_target_str
    rw [hr]
  have hcm : create_target_str target (cs "musl") abi =
      some (p0 ++ ['-'] ++ cs "musl" ++ abi) := by
    unfold create_target_str
    rw [hr]
  refine ⟨?_, ?_, ?_⟩
  · intro o ho
    simp only [detect_targets_linux, habi, ho, hcg, hcm]
    rw [if_pos trivial]
  · intro o ho
    cases ho with
    | inl hmu =>
      simp only [detect_targets_linux, habi, hmu, hcm]
      rw [if_neg (by decide)]
      rfl
    | inr hn =>
      simp only [detect_targets_linux, habi, hn, hcm, Option.map_some']
  · simp only [detect_targets_linux, habi, hcm, Option.map_some']

/-- Witness for C2 on the launch-failure branch at a concrete target. -/
theorem claim_C2_witness :
    detect_targets_linux (cs "x86_64-unknown-linux-gnu") none =
      some [cs "x86_64-unknown-linux" ++ ['-'] ++ cs "musl" ++ cs ""] :=
  (claim_C2_detect_targets_linux (cs "x86_64-unknown-linux-gnu")
    (cs "x86_64-unknown-linux") (cs "gnu") (cs "")
    (by decide) (by decide)).2.2

/-- C5 counterexample: an ldd process that exits unsuccessfully but
prints a glibc marker is NOT treated like a launch failure: the result
is the two-element gnu-first list, not the single musl list the claim
requires. -/
theorem claim_C5_counterexample :
    (Output.mk false (asciiBytes (cs "GLIBC 2.31")) []).status = false ∧
    detect_targets_linux (cs "x86_64-unknown-linux-gnu")
        (some (Output.mk false (asciiBytes (cs "GLIBC 2.31")) [])) =
      some [cs "x86_64-unknown-linux-gnu", cs "x86_64-unknown-linux-musl"] ∧
    detect_targets_linux (cs "x86_64-unknown-linux-gnu")
        (some (Output.mk false (asciiBytes (cs "GLIBC 2.31")) [])) ≠
      some [cs "x86_64-unknown-linux-musl"] := by
  decide

/-- C5 (amended): the Linux heuristic ignores the ldd exit status
entirely: the result depends only on the captured stdout and stderr
bytes; only a finished process whose output is inconclusive is treated
the same as a launch failure. -/
theorem claim_C5_status_ignored :
    (∀ target s1 s2 out err,
      detect_targets_linux target (some (Output.mk s1 out err)) =
        detect_targets_linux target (some (Output.mk s2 out err))) ∧
    (∀ target o, detectedLibc o = none →
      detect_targets_linux target (some o) = detect_targets_linux target none) := by
  constructor
  · intro target s1 s2 out err
    rfl
  · intro target o ho
    cases habi : parse_abi target with
    | none => simp only [detect_targets_linux, habi]
    | some abi => simp only [detect_targets_linux, habi, ho]

/-- Witness for C5's amended theorem: flipping the exit status on a
concrete glibc-marked output changes nothing, and a concrete
inconclusive output behaves like a launch failure. -/
theorem claim_C5_witness :
    detect_targets_linux (cs "x86_64-unknown-linux-gnu")
        (some (Output.mk true (asciiBytes (cs "GLIBC 2.31")) [])) =
      detect_targets_linux (cs "x86_64-unknown-linux-gnu")
        (some (Output.mk false (asciiBytes (cs "GLIBC 2.31")) [])) ∧
    detect_targets_linux (cs "x86_64-unknown-linux-gnu")
        (some (Output.mk true (asciiBytes (cs "ldd: command spam")) [])) =
      detect_targets_linux (cs "x86_64-unknown-linux-gnu") none :=
  ⟨claim_C5_status_ignored.1 (cs "x86_64-unknown-linux-gnu") true false
      (asciiBytes (cs "GLIBC 2.31")) [],
   claim_C5_status_ignored.2 (cs "x86_64-unknown-linux-gnu")
      (Output.mk true (asciiBytes (cs "ldd: command spam")) []) (by decide)⟩

theorem create_pair_ne (p0 abi : List Char) :
    p0 ++ ['-'] ++ cs "gnu" ++ abi ≠ p0 ++ ['-'] ++ cs "musl" ++ abi := by
  intro he
  have hl := congrArg List.length he
  simp only [List.length_append] at hl
  rw [show (cs "gnu").length = 3 from rfl, show (cs "musl").length = 4 from rfl] at hl
  omega

/-- C1: when the toolchain probe yields a triple T, the result starts
with T and is augmented per platform: on Linux, when T contains "gnu", a
copy with "gnu" replaced by "musl" is appended; on macOS, when T equals
the aarch64 constant, the x86_64 constant is appended; in every other
case the result is exactly [T]; the fallback inputs play no part. -/
theorem claim_C1_detect_targets_probe (t : List Char) (rustcRes : Option Output)
    (h : get_target_from_rustc rustcRes = some t) :
    ∀ target lddRes guess,
      (strContains (cs "gnu") t = true →
        detect_targets OS.linux target rustcRes lddRes guess =
          some [t, replaceAll (cs "gnu") (cs "musl") t]) ∧
      (strContains (cs "gnu") t = false →
        detect_targets OS.linux target rustcRes lddRes guess = some [t]) ∧
      (t = AARCH64 →
        detect_targets OS.macos target rustcRes lddRes guess = some [t, X86]) ∧
      (t ≠ AARCH64 →
        detect_targets OS.macos target rustcRes lddRes guess = some [t]) ∧
      detect_targets OS.other target rustcRes lddRes guess = some [t] := by
  intro target lddRes guess
  refine ⟨?_, ?_, ?_, ?_, ?_⟩
  · intro hg
    simp [detect_targets, h, hg]
  · intro hg
    simp [detect_targets, h, hg]
  · intro ha
    simp [detect_targets, h, ha]
  · intro ha
    simp [detect_targets, h, ha]
  · simp [detect_targets, h]

/-- Witness for C1: a concrete rustc output with a gnu host triple on
the Linux branch. -/
theorem claim_C1_witness :
    detect_targets OS.linux []
        (some (Output.mk true
          (asciiBytes (cs "host: x86_64-unknown-linux-gnu\n")) []))
        none none =
      some [cs "x86_64-unknown-linux-gnu", cs "x86_64-unknown-linux-musl"] := by
  rw [(claim_C1_detect_targets_probe (cs "x86_64-unknown-linux-gnu")
    (some (Output.mk true
      (asciiBytes (cs "host: x86_64-unknown-linux-gnu\n")) []))
    (by decide) [] none none).1 (by decide)]
  decide

/-- C3: every candidate list that detect_targets returns (any platform
branch, any probe and heuristic outcome) is non-empty and contains no
duplicate entries. -/
theorem claim_C3_nonempty_nodup (os : OS) (target : List Char)
    (rustcRes lddRes : Option Output) (guess : Option (List Char))
    (l : List (List Char))
    (h : detect_targets os target rustcRes lddRes guess = some l) :
    l ≠ [] ∧ l.Nodup := by
  cases hpr : get_target_from_rustc rustcRes with
  | some t =>
    cases os with
    | linux =>
      have heq : detect_targets OS.linux target rustcRes lddRes guess =
          some (if strContains (cs "gnu") t = true then
            [t, replaceAll (cs "gnu") (cs "musl") t] else [t]) := by
        simp only [detect_targets, hpr]
      rw [heq] at h
      by_cases hg : strContains (cs "gnu") t = true
      · rw [if_pos hg] at h
        have hl := (Option.some.inj h).symm
        subst hl
        have hlt := replaceAll_length_gt (cs "gnu") (cs "musl") t
          (by decide) (by decide) hg
        have hne : t ≠ replaceAll (cs "gnu") (cs "musl") t := fun he => by
          rw [← he] at hlt
          exact Nat.lt_irrefl _ hlt
        exact ⟨by simp, by simp [hne]⟩
      · rw [if_neg hg] at h
        have hl := (Option.some.inj h).symm
        subst hl
        exact ⟨by simp, by simp⟩
    | macos =>
      have heq : detect_targets OS.macos target rustcRes lddRes guess =
          some (if t = AARCH64 then [t, X86] else [t]) := by
        simp only [detect_targets, hpr]
      rw [heq] at h
      by_cases ha : t = AARCH64
      · rw [if_pos ha] at h
        have hl := (Option.some.inj h).symm
        subst hl
        have hne : t ≠ X86 := by
          rw [ha]
          decide
        exact ⟨by simp, by simp [hne]⟩
      · rw [if_neg ha] at h
        have hl := (Option.some.inj h).symm
        subst hl
        exact ⟨by simp, by simp⟩
    | other =>
      have heq : detect_targets OS.other target rustcRes lddRes guess = some [t] := by
        simp only [detect_targets, hpr]
      rw [heq] at h
      have hl := (Option.some.inj h).symm
      subst hl
      exact ⟨by simp, by simp⟩
  | none =>
    cases os with
    | linux =>
      have heq : detect_targets OS.linux target rustcRes lddRes guess =
          detect_targets_linux target lddRes := by
        simp only [detect_targets, hpr]
      rw [heq] at h
      cases habi : parse_abi target with
      | none =>
        have hnone : detect_targets_linux target lddRes = none := by
          simp only [detect_targets_linux, habi]
        rw [hnone] at h
        exact absurd h (by simp)
      | some abi =>
        cases hrr : rsplitOnce '-' target with
        | none =>
          have : parse_abi target = none := by
            unfold parse_abi
            rw [hrr]
          rw [this] at habi
          exact absurd habi (by simp)
        | some pr =>
          obtain ⟨p0, l0⟩ := pr
          have hcg : create_target_str target (cs "gnu") abi =
              some (p0 ++ ['-'] ++ cs "gnu" ++ abi) := by
            unfold create_target_str
            rw [hrr]
          have hcm : create_target_str target (cs "musl") abi =
              some (p0 ++ ['-'] ++ cs "musl" ++ abi) := by
            unfold create_target_str
            rw [hrr]
          cases lddRes with
          | none =>
            have heq2 : detect_targets_linux target none =
                some [p0 ++ ['-'] ++ cs "musl" ++ abi] := by
              simp only [detect_targets_linux, habi, hcm, Option.map_some']
            rw [heq2] at h
            have hl := (Option.some.inj h).symm
            subst hl
            exact ⟨by simp, by simp⟩
          | some o =>
            cases hdl : detectedLibc o with
            | none =>
              have heq2 : detect_targets_linux target (some o) =
                  some [p0 ++ ['-'] ++ cs "musl" ++ abi] := by
                simp only [detect_targets_linux, habi, hdl, hcm, Option.map_some']
              rw [heq2] at h
              have hl := (Option.some.inj h).symm
              subst hl
              exact ⟨by simp, by simp⟩
            | some lv =>
              by_cases hlv : lv = cs "gnu"
              · subst hlv
                have heq2 : detect_targets_linux target (some o) =
                    some [p0 ++ ['-'] ++ cs "gnu" ++ abi,
                      p0 ++ ['-'] ++ cs "musl" ++ abi] := by
                  simp only [detect_targets_linux, habi, hdl, hcg, hcm]
                  rw [if_pos trivial]
                rw [heq2] at h
                have hl := (Option.some.inj h).symm
                subst hl
                refine ⟨by simp, ?_⟩
                simp only [List.nodup_cons, List.mem_singleton, List.mem_nil_iff,
                  or_false, List.nodup_nil, and_true, List.not_mem_nil,
                  not_false_eq_true]
                exact create_pair_ne p0 abi
              · have heq2 : detect_targets_linux target (some o) =
                    some [p0 ++ ['-'] ++ cs "musl" ++ abi] := by
                  simp [detect_targets_linux, habi, hdl, hcm, hlv]
                rw [heq2] at h
                have hl := (Option.some.inj h).symm
                subst hl
                exact ⟨by simp, by simp⟩
    | macos =>
      have heq : detect_targets OS.macos target rustcRes lddRes guess =
          some (detect_targets_macos guess) := by
        simp only [detect_targets, hpr]
      rw [heq] at h
      have hl := (Option.some.inj h).symm
      subst hl
      unfold detect_targets_macos
      by_cases hgu : guess = some AARCH64
      · rw [if_pos hgu]
        exact ⟨by simp, by decide⟩
      · rw [if_neg hgu]
        exact ⟨by simp, by simp⟩
    | other =>
      have heq : detect_targets OS.other target rustcRes lddRes guess =
          some [target] := by
        simp only [detect_targets, hpr]
      rw [heq] at h
      have hl := (Option.some.inj h).symm
      subst hl
      exact ⟨by simp, by simp⟩

/-- Witness for C3 on the other-platform fallback at a concrete input. -/
theorem claim_C3_witness :
    ([cs "t-q"] : List (List Char)) ≠ [] ∧ ([cs "t-q"] : List (List Char)).Nodup :=
  claim_C3_nonempty_nodup OS.other (cs "t-q") none none none [cs "t-q"] (by decide)
